import Mathlib

/-!
Formal model of the entity-resolution and evaluation pipeline of the
graphrag-ner-chatbot repository (etl-service: ner_wayang.py and
evaluate_ner.py).  Texts are modelled as `List Char` (the corpus is ASCII);
Python string slices, `strip`, `lower` and friends are given explicit
definitions; floating-point confidence scores are modelled as exact
rationals (concrete values written with `mkRat`).  File loading, the
transformer model call and printing are external collaborators: rows carry
the preprocessed text together with the spans the model reported on it.
-/

/-- Python slice `text[a:b]` for natural indices: drop `a`, take `b - a`
(clamped at the end of the list, empty when `b ≤ a`). -/
def pySlice (text : List Char) (a b : Nat) : List Char :=
  (text.drop a).take (b - a)

/-- Fuel-driven form of the while-loop of `expand_to_full_word`
(ner_wayang.py lines 49-51): starting from position `e`, advance while the
position is in range and the character there is alphanumeric.  Out-of-range
reads are represented by the non-alphanumeric default `' '`.  Fuel
`text.length - e` is always enough, since every step increases `e` and the
loop stops at `text.length`. -/
def advanceEndFuel : Nat → List Char → Nat → Nat
  | 0, _, e => e
  | fuel + 1, text, e =>
    if e < text.length ∧ (text.getD e ' ').isAlphanum then
      advanceEndFuel fuel text (e + 1)
    else e

/-- The repaired end position: the while-loop run with sufficient fuel. -/
def advanceEnd (text : List Char) (e : Nat) : Nat :=
  advanceEndFuel (text.length - e) text e

/-- `expand_to_full_word(text, start, end)` from ner_wayang.py lines 37-53:
if `end ≥ len(text)` return `text[start:end]` unchanged, otherwise advance
the end past consecutive alphanumeric characters and slice. -/
def expand_to_full_word (text : List Char) (start e : Nat) : List Char :=
  if text.length ≤ e then pySlice text start e
  else pySlice text start (advanceEnd text e)

/-- `word.replace("##", "")`: delete every (left-to-right, non-overlapping)
occurrence of the two-character continuation marker. -/
def removeMarkers : List Char → List Char
  | '#' :: '#' :: rest => removeMarkers rest
  | c :: rest => c :: removeMarkers rest
  | [] => []

/-- The character set of `word.strip(" .,:;!?\"'()")` in `clean_entity_name`
(the two `Char.ofNat` entries are the double and the single quote). -/
def stripChars : List Char :=
  [' ', '.', ',', ':', ';', '!', '?', Char.ofNat 34, Char.ofNat 39, '(', ')']

/-- Python `word.strip(chars)`: remove leading and trailing characters that
belong to the strip set. -/
def pyStripBoth (s : List Char) : List Char :=
  ((s.dropWhile (fun c => stripChars.contains c)).reverse.dropWhile
    (fun c => stripChars.contains c)).reverse

/-- `re.sub(' +', ' ', word)`: collapse every run of spaces to one space. -/
def collapseSpaces : List Char → List Char
  | [] => []
  | [c] => [c]
  | c :: d :: rest =>
    if c = ' ' ∧ d = ' ' then collapseSpaces (d :: rest)
    else c :: collapseSpaces (d :: rest)

/-- `clean_entity_name(word)` from ner_wayang.py lines 31-35: remove `##`
continuation markers, strip the fixed punctuation set from both ends, and
collapse space runs. -/
def clean_entity_name (word : List Char) : List Char :=
  collapseSpaces (pyStripBoth (removeMarkers word))

/-- Python `s.lower()` (ASCII range, as in the corpus). -/
def pyLower (s : List Char) : List Char :=
  s.map Char.toLower

/-- Python `s.strip()` with no arguments: remove leading and trailing
whitespace. -/
def pyTrim (s : List Char) : List Char :=
  ((s.dropWhile Char.isWhitespace).reverse.dropWhile Char.isWhitespace).reverse

/-- The spec's key function, stated from the spec's words:
`normalize(display_name) = lowercase(trim(display_name))`. -/
def normalize_key (s : List Char) : List Char :=
  pyLower (pyTrim s)

/-- Properties of the bounded while-loop: it only moves the end forward,
never beyond the text (when starting inside it), passes only alphanumeric
characters, and stops at a position that fails the loop condition. -/
theorem advanceEndFuel_props :
    ∀ (fuel : Nat) (text : List Char) (e : Nat),
      text.length - e ≤ fuel →
      e ≤ advanceEndFuel fuel text e ∧
      advanceEndFuel fuel text e ≤ max e text.length ∧
      (∀ i, e ≤ i → i < advanceEndFuel fuel text e →
        (text.getD i ' ').isAlphanum = true) ∧
      ¬(advanceEndFuel fuel text e < text.length ∧
        (text.getD (advanceEndFuel fuel text e) ' ').isAlphanum = true) := by
  intro fuel
  induction fuel with
  | zero =>
    intro text e h
    simp only [advanceEndFuel]
    refine ⟨Nat.le_refl e, Nat.le_max_left e _, ?_, ?_⟩
    · intro i hei hie; omega
    · intro hc; exact absurd hc.1 (by omega)
  | succ fuel ih =>
    intro text e h
    by_cases hc : e < text.length ∧ (text.getD e ' ').isAlphanum = true
    · rw [advanceEndFuel, if_pos hc]
      obtain ⟨h1, h2, h3, h4⟩ := ih text (e + 1) (by omega)
      refine ⟨by omega, by omega, ?_, h4⟩
      intro i hei hie
      rcases Nat.eq_or_lt_of_le hei with heq | hlt
      · exact heq ▸ hc.2
      · exact h3 i (by omega) hie
    · rw [advanceEndFuel, if_neg hc]
      exact ⟨Nat.le_refl e, Nat.le_max_left e _,
        fun i hei hie => absurd hie (by omega), hc⟩

/-- The same properties for `advanceEnd` itself. -/
theorem advanceEnd_props (text : List Char) (e : Nat) :
    e ≤ advanceEnd text e ∧
    advanceEnd text e ≤ max e text.length ∧
    (∀ i, e ≤ i → i < advanceEnd text e →
      (text.getD i ' ').isAlphanum = true) ∧
    ¬(advanceEnd text e < text.length ∧
      (text.getD (advanceEnd text e) ' ').isAlphanum = true) :=
  advanceEndFuel_props (text.length - e) text e (Nat.le_refl _)

/-- Claim C6: span repair follows the stated algorithm.  If `end` is at or
past the end of the text the slice is returned unchanged; otherwise the end
is advanced past consecutive alphanumeric characters, stopping at the first
non-alphanumeric character or the end of the text, and the slice up to the
repaired end is returned; concretely,
`expand("Arya Basusara adalah", 0, 8) = "Arya Basusara"`. -/
theorem claim_C6_expand_algorithm :
    (∀ (text : List Char) (start e : Nat), text.length ≤ e →
      expand_to_full_word text start e = pySlice text start e) ∧
    (∀ (text : List Char) (start e : Nat), e < text.length →
      expand_to_full_word text start e = pySlice text start (advanceEnd text e) ∧
      e ≤ advanceEnd text e ∧
      advanceEnd text e ≤ text.length ∧
      (∀ i, e ≤ i → i < advanceEnd text e →
        (text.getD i ' ').isAlphanum = true) ∧
      (advanceEnd text e = text.length ∨
        (text.getD (advanceEnd text e) ' ').isAlphanum = false)) ∧
    expand_to_full_word ("Arya Basusara adalah".toList) 0 8 =
      ("Arya Basusara".toList) := by
  refine ⟨?_, ?_, by decide⟩
  · intro text start e h
    rw [expand_to_full_word, if_pos h]
  · intro text start e h
    obtain ⟨h1, h2, h3, h4⟩ := advanceEnd_props text e
    have hle : advanceEnd text e ≤ text.length := by omega
    refine ⟨by rw [expand_to_full_word, if_neg (by omega)], h1, hle, h3, ?_⟩
    rcases Nat.eq_or_lt_of_le hle with heq | hlt
    · exact Or.inl heq
    · right
      by_contra hb
      exact h4 ⟨hlt, by revert hb; cases (text.getD (advanceEnd text e) ' ').isAlphanum <;> simp⟩

/-- Witness for C6: both branches of the algorithm applied at concrete
inputs. -/
theorem claim_C6_expand_algorithm_witness :
    expand_to_full_word ("ab".toList) 0 2 = pySlice ("ab".toList) 0 2 ∧
    expand_to_full_word ("Arya Basusara adalah".toList) 0 8 =
      pySlice ("Arya Basusara adalah".toList) 0
        (advanceEnd ("Arya Basusara adalah".toList) 8) :=
  ⟨claim_C6_expand_algorithm.1 ("ab".toList) 0 2 (by decide),
   (claim_C6_expand_algorithm.2.1 ("Arya Basusara adalah".toList) 0 8 (by decide)).1⟩

/-- Claim C8: repair never shrinks a span.  For valid offsets
`start ≤ end ≤ len(text)`, the repaired slice has length at least
`end - start`. -/
theorem claim_C8_repair_never_shrinks (text : List Char) (start e : Nat)
    (hse : start ≤ e) (hel : e ≤ text.length) :
    e - start ≤ (expand_to_full_word text start e).length := by
  obtain ⟨h1, h2, _, _⟩ := advanceEnd_props text e
  rw [expand_to_full_word]
  split
  · simp only [pySlice, List.length_take, List.length_drop]
    omega
  · simp only [pySlice, List.length_take, List.length_drop]
    omega

/-- Witness for C8 at a concrete mid-word span. -/
theorem claim_C8_repair_never_shrinks_witness :
    (0 ≤ 8 ∧ 8 ≤ ("Arya Basusara adalah".toList).length) ∧
    8 - 0 ≤ (expand_to_full_word ("Arya Basusara adalah".toList) 0 8).length :=
  ⟨⟨by decide, by decide⟩,
   claim_C8_repair_never_shrinks ("Arya Basusara adalah".toList) 0 8
     (by decide) (by decide)⟩

/-- Claim C3 (counterexample): cleaning the raw joined sub-token string
"Bam ##bang" does not return "Bambang" — `replace("##", "")` removes the
marker but keeps the separating space. -/
theorem claim_C3_counterexample :
    ¬ (clean_entity_name ("Bam ##bang".toList) = "Bambang".toList) := by
  decide

/-- Claim C3 as amended: cleaning "Bam ##bang" returns the two-word string
"Bam bang" (continuation marker stripped, the space between the sub-tokens
kept and collapsed to one). -/
theorem claim_C3_amended_clean :
    clean_entity_name ("Bam ##bang".toList) = "Bam bang".toList := by
  decide

/-- Association-list model of a Python dict keyed by strings: lookup returns
the value bound to the first (unique) occurrence of the key. -/
def lookupTable {α : Type} : List (List Char × α) → List Char → Option α
  | [], _ => none
  | (k', v) :: rest, k => if k' = k then some v else lookupTable rest k

/-- Python dict assignment `d[k] = v`: overwrite in place when the key is
present, append otherwise (insertion order preserved, as in Python). -/
def setTable {α : Type} : List (List Char × α) → List Char → α → List (List Char × α)
  | [], k, v => [(k, v)]
  | (k', v') :: rest, k, v =>
    if k' = k then (k, v) :: rest else (k', v') :: setTable rest k v

/-- One record of either the model-result list or the gold-standard list of
evaluate_ner.py: a display name and a label. -/
structure EvalItem where
  name : List Char
  label : List Char
deriving DecidableEq

/-- The dict comprehension `{item['name'].lower(): item for item in items}`
(evaluate_ner.py lines 80-81). -/
def buildDict (items : List EvalItem) : List (List Char × EvalItem) :=
  items.foldl (fun d it => setTable d (pyLower it.name) it) []

/-- The counters accumulated by the gold-coverage loop of
`calculate_metrics` (evaluate_ner.py lines 83-111), together with the
mismatch diagnostics emitted along the way (gold display name, gold label,
model label). -/
structure EvalCounts where
  tp : Nat
  strict_tp : Nat
  strict_fp_label_error : Nat
  fn : Nat
  mismatches : List (List Char × List Char × List Char)
deriving DecidableEq

/-- One iteration of the gold-coverage loop (evaluate_ner.py lines 94-111):
look the gold item up among the predictions by lowercased name; on a
case-insensitive label match count a true positive, on a label mismatch
emit a diagnostic and count a label error plus a false negative, and when
the item is absent count a false negative. -/
def evalStep (model_predictions : List (List Char × EvalItem))
    (c : EvalCounts) (g : List Char × EvalItem) : EvalCounts :=
  match lookupTable model_predictions g.1 with
  | some prediction =>
    if pyLower prediction.label = pyLower g.2.label then
      { c with tp := c.tp + 1, strict_tp := c.strict_tp + 1 }
    else
      { c with
        mismatches := c.mismatches ++ [(g.2.name, g.2.label, prediction.label)],
        strict_fp_label_error := c.strict_fp_label_error + 1,
        fn := c.fn + 1 }
  | none => { c with fn := c.fn + 1 }

/-- The counters after the whole gold-coverage loop. -/
def evalCounts (json_results GOLD_STANDARD : List EvalItem) : EvalCounts :=
  (buildDict GOLD_STANDARD).foldl (evalStep (buildDict json_results)) ⟨0, 0, 0, 0, []⟩

/-- `recall = (tp / len(GOLD_STANDARD)) * 100 if len(GOLD_STANDARD) > 0
else 0` (evaluate_ner.py line 122). -/
def recall_metric (json_results GOLD_STANDARD : List EvalItem) : ℚ :=
  if 0 < GOLD_STANDARD.length then
    ((evalCounts json_results GOLD_STANDARD).tp : ℚ) / (GOLD_STANDARD.length : ℚ) * 100
  else 0

/-- `total_found_in_gold_set = strict_tp + strict_fp_label_error`
(evaluate_ner.py line 128). -/
def total_found_in_gold_set (json_results GOLD_STANDARD : List EvalItem) : Nat :=
  (evalCounts json_results GOLD_STANDARD).strict_tp +
    (evalCounts json_results GOLD_STANDARD).strict_fp_label_error

/-- `strict_precision = (strict_tp / total_found_in_gold_set) * 100 if
total_found_in_gold_set > 0 else 0` (evaluate_ner.py line 129). -/
def strict_precision_metric (json_results GOLD_STANDARD : List EvalItem) : ℚ :=
  if 0 < total_found_in_gold_set json_results GOLD_STANDARD then
    ((evalCounts json_results GOLD_STANDARD).strict_tp : ℚ) /
      (total_found_in_gold_set json_results GOLD_STANDARD : ℚ) * 100
  else 0

/-- `f1 = 2 * (strict_precision * recall) / (strict_precision + recall)` when
`strict_precision + recall > 0`, else `0` (evaluate_ner.py lines 133-136). -/
def f1_metric (json_results GOLD_STANDARD : List EvalItem) : ℚ :=
  if 0 < strict_precision_metric json_results GOLD_STANDARD +
      recall_metric json_results GOLD_STANDARD then
    2 * (strict_precision_metric json_results GOLD_STANDARD *
        recall_metric json_results GOLD_STANDARD) /
      (strict_precision_metric json_results GOLD_STANDARD +
        recall_metric json_results GOLD_STANDARD)
  else 0

/-- `label_accuracy = strict_precision` (evaluate_ner.py line 141). -/
def label_accuracy_metric (json_results GOLD_STANDARD : List EvalItem) : ℚ :=
  strict_precision_metric json_results GOLD_STANDARD

/-- The full evaluation result of `calculate_metrics` (file loading and
printing abstracted away: the parameters are the parsed model-result list
and the gold-standard list). -/
structure Metrics where
  tp : Nat
  strict_tp : Nat
  strict_fp_label_error : Nat
  fn : Nat
  total_found : Nat
  recall_percent : ℚ
  strict_precision : ℚ
  f1 : ℚ
  label_accuracy : ℚ
  mismatches : List (List Char × List Char × List Char)

/-- `calculate_metrics` of evaluate_ner.py, as a function of the two input
lists. -/
def calculate_metrics (json_results GOLD_STANDARD : List EvalItem) : Metrics where
  tp := (evalCounts json_results GOLD_STANDARD).tp
  strict_tp := (evalCounts json_results GOLD_STANDARD).strict_tp
  strict_fp_label_error := (evalCounts json_results GOLD_STANDARD).strict_fp_label_error
  fn := (evalCounts json_results GOLD_STANDARD).fn
  total_found := total_found_in_gold_set json_results GOLD_STANDARD
  recall_percent := recall_metric json_results GOLD_STANDARD
  strict_precision := strict_precision_metric json_results GOLD_STANDARD
  f1 := f1_metric json_results GOLD_STANDARD
  label_accuracy := label_accuracy_metric json_results GOLD_STANDARD
  mismatches := (evalCounts json_results GOLD_STANDARD).mismatches

/-- The gold list of the concrete evaluation scenario of claim C2. -/
def goldC2 : List EvalItem :=
  [⟨"Prabu Basukesti".toList, "Person".toList⟩,
   ⟨"Medang Kamulan".toList, "Location".toList⟩]

/-- The prediction list of the concrete evaluation scenario of claim C2. -/
def predsC2 : List EvalItem :=
  [⟨"prabu basukesti".toList, "Person".toList⟩,
   ⟨"medang kamulan".toList, "Person".toList⟩]

/-- Claim C2 (counterexample): on the concrete scenario the claimed result
tuple does not hold, because the found-but-mislabeled gold item
"Medang Kamulan" also increments the missed counter (evaluate_ner.py line
107), so the reported missed count is 1, not 0. -/
theorem claim_C2_counterexample :
    ¬ ((calculate_metrics predsC2 goldC2).tp = 1 ∧
       (calculate_metrics predsC2 goldC2).strict_fp_label_error = 1 ∧
       (calculate_metrics predsC2 goldC2).fn = 0 ∧
       (calculate_metrics predsC2 goldC2).recall_percent = 50 ∧
       (calculate_metrics predsC2 goldC2).strict_precision = 50 ∧
       (calculate_metrics predsC2 goldC2).f1 = 50 ∧
       (calculate_metrics predsC2 goldC2).mismatches =
         [("Medang Kamulan".toList, "Location".toList, "Person".toList)]) :=
  fun h => absurd h.2.2.1 (by decide)

/-- Claim C2 as amended: the scenario yields true_positive_count = 1,
label_error_count = 1, missed_count = 1 (the mislabeled-but-found item
counts as a false negative as well), recall = 50, strict_precision = 50,
f1 = 50, and exactly one mismatch diagnostic naming "Medang Kamulan" with
gold label Location and model label Person. -/
theorem claim_C2_amended_scenario :
    (calculate_metrics predsC2 goldC2).tp = 1 ∧
    (calculate_metrics predsC2 goldC2).strict_fp_label_error = 1 ∧
    (calculate_metrics predsC2 goldC2).fn = 1 ∧
    (calculate_metrics predsC2 goldC2).recall_percent = 50 ∧
    (calculate_metrics predsC2 goldC2).strict_precision = 50 ∧
    (calculate_metrics predsC2 goldC2).f1 = 50 ∧
    (calculate_metrics predsC2 goldC2).mismatches =
      [("Medang Kamulan".toList, "Location".toList, "Person".toList)] := by
  have htp : (evalCounts predsC2 goldC2).tp = 1 := by decide
  have hstp : (evalCounts predsC2 goldC2).strict_tp = 1 := by decide
  have htf : total_found_in_gold_set predsC2 goldC2 = 2 := by decide
  have hlen : goldC2.length = 2 := by decide
  have hrec : recall_metric predsC2 goldC2 = 50 := by
    simp only [recall_metric, htp, hlen]; norm_num
  have hsp : strict_precision_metric predsC2 goldC2 = 50 := by
    simp only [strict_precision_metric, hstp, htf]; norm_num
  have hf1 : f1_metric predsC2 goldC2 = 50 := by
    simp only [f1_metric, hsp, hrec]; norm_num
  exact ⟨by decide, by decide, by decide, hrec, hsp, hf1, by decide⟩

/-- Claim C4: the metric percentages are total functions of the inputs —
each ratio is `count/denominator * 100` when its denominator is positive
and 0 when the denominator is 0; strict precision is 0 when nothing was
found in the gold set; f1 is 0 when recall and strict precision are both
0. -/
theorem claim_C4_no_division_error (json_results GOLD_STANDARD : List EvalItem) :
    (GOLD_STANDARD.length = 0 →
      (calculate_metrics json_results GOLD_STANDARD).recall_percent = 0) ∧
    (0 < GOLD_STANDARD.length →
      (calculate_metrics json_results GOLD_STANDARD).recall_percent =
        ((calculate_metrics json_results GOLD_STANDARD).tp : ℚ) /
          (GOLD_STANDARD.length : ℚ) * 100) ∧
    ((calculate_metrics json_results GOLD_STANDARD).total_found = 0 →
      (calculate_metrics json_results GOLD_STANDARD).strict_precision = 0) ∧
    (0 < (calculate_metrics json_results GOLD_STANDARD).total_found →
      (calculate_metrics json_results GOLD_STANDARD).strict_precision =
        ((calculate_metrics json_results GOLD_STANDARD).strict_tp : ℚ) /
          ((calculate_metrics json_results GOLD_STANDARD).total_found : ℚ) * 100) ∧
    ((calculate_metrics json_results GOLD_STANDARD).recall_percent = 0 ∧
        (calculate_metrics json_results GOLD_STANDARD).strict_precision = 0 →
      (calculate_metrics json_results GOLD_STANDARD).f1 = 0) := by
  simp only [calculate_metrics]
  refine ⟨?_, ?_, ?_, ?_, ?_⟩
  · intro h; simp [recall_metric, h]
  · intro h; simp [recall_metric, h]
  · intro h; simp [strict_precision_metric, h]
  · intro h; simp [strict_precision_metric, h]
  · rintro ⟨h1, h2⟩; simp [f1_metric, h1, h2]

/-- Witness for C4 at the empty inputs: every zero-denominator ratio is 0. -/
theorem claim_C4_no_division_error_witness :
    ([] : List EvalItem).length = 0 ∧
    (calculate_metrics [] []).recall_percent = 0 ∧
    (calculate_metrics [] []).strict_precision = 0 ∧
    (calculate_metrics [] []).f1 = 0 :=
  ⟨rfl, (claim_C4_no_division_error [] []).1 rfl,
   (claim_C4_no_division_error [] []).2.2.1 rfl,
   (claim_C4_no_division_error [] []).2.2.2.2
     ⟨(claim_C4_no_division_error [] []).1 rfl,
      (claim_C4_no_division_error [] []).2.2.1 rfl⟩⟩

/-- Claim C9: for every prediction list and gold list, the label_accuracy
metric is identically the strict_precision metric (evaluate_ner.py line
141 assigns one to the other). -/
theorem claim_C9_label_accuracy_eq_strict_precision
    (json_results GOLD_STANDARD : List EvalItem) :
    (calculate_metrics json_results GOLD_STANDARD).label_accuracy =
      (calculate_metrics json_results GOLD_STANDARD).strict_precision := rfl

/-- `CONFIDENCE_THRESHOLD = 0.60` (ner_wayang.py line 12). -/
def CONFIDENCE_THRESHOLD : ℚ := mkRat 60 100

/-- The blocklist of function words and titles (ner_wayang.py lines 15-19). -/
def BLOCKLIST : List (List Char) :=
  ["Sang".toList, "Para".toList, "Yang".toList, "Dan".toList, "Di".toList,
   "Ke".toList, "Dari".toList, "Saat".toList, "Ketika".toList, "Maka".toList,
   "Lalu".toList, "Akan".toList, "Telah".toList, "Sudah".toList, "Ia".toList,
   "Dia".toList, "Mereka".toList, "Hal".toList]

/-- One span reported by the external labeling model for a text: entity
group, confidence score, character offsets (ner_wayang.py lines 100-104).
`endPos` models the span field named `end` in the source. -/
structure RawEnt where
  entity_group : String
  score : ℚ
  start : Nat
  endPos : Nat
deriving DecidableEq

/-- The per-key record held in the `unique_entities` dict (ner_wayang.py
lines 129-133): label, best score, and the set of story titles, modelled as
a duplicate-free list in insertion order. -/
structure EntityData where
  label : String
  score : ℚ
  stories : List (List Char)
deriving DecidableEq

/-- Python set `add`: append the story title unless already present. -/
def addStory (stories : List (List Char)) (story : List Char) : List (List Char) :=
  if story ∈ stories then stories else stories ++ [story]

/-- The label mapping of ner_wayang.py lines 122-125: `PER ↦ Person`,
`ORG ↦ Organization`, `LOC ↦ Location`, anything else `Unknown`. -/
def label_of_group (group : String) : String :=
  if group = "PER" then "Person"
  else if group = "ORG" then "Organization"
  else if group = "LOC" then "Location"
  else "Unknown"

/-- The body of the per-entity loop of `run_ner_process` (ner_wayang.py
lines 100-139): reject on low confidence, repair and clean the span text,
reject too-short and blocklisted strings, map the group to a label, and for
a known label create or merge the dict entry keyed by the cleaned word. -/
def processEntity (text story_title : List Char)
    (table : List (List Char × EntityData)) (ent : RawEnt) :
    List (List Char × EntityData) :=
  if ent.score < CONFIDENCE_THRESHOLD then table
  else
    let clean_word := clean_entity_name (expand_to_full_word text ent.start ent.endPos)
    if clean_word.length < 3 then table
    else if clean_word ∈ BLOCKLIST then table
    else
      let label := label_of_group ent.entity_group
      if label ≠ "Unknown" then
        match lookupTable table clean_word with
        | none => setTable table clean_word ⟨label, ent.score, [story_title]⟩
        | some d =>
          setTable table clean_word
            ⟨d.label, max d.score ent.score, addStory d.stories story_title⟩
      else table

/-- One corpus row as the aggregation loop sees it: the preprocessed text
(the output of `preprocess_text`, which is what the model is called on and
what the offsets refer to), the story title, and the spans the external
model reported for this text. -/
structure Row where
  text : List Char
  judul : List Char
  ents : List RawEnt

/-- One iteration of the row loop (ner_wayang.py lines 86-139): skip rows
whose text is shorter than 5 characters, otherwise process every reported
span. -/
def processRow (table : List (List Char × EntityData)) (r : Row) :
    List (List Char × EntityData) :=
  if r.text.length < 5 then table
  else r.ents.foldl (processEntity r.text (pyTrim r.judul)) table

/-- The `unique_entities` dict after the whole corpus pass. -/
def unique_entities (rows : List Row) : List (List Char × EntityData) :=
  rows.foldl processRow []

/-- One record of the serialized output list (ner_wayang.py lines 144-152). -/
structure EntityRecord where
  name : List Char
  label : String
  confidence : ℚ
  stories : List (List Char)
deriving DecidableEq

/-- Lexicographic comparison of strings by code point, as Python compares
strings for `sort`/`sorted`. -/
def strLe : List Char → List Char → Bool
  | [], _ => true
  | _ :: _, [] => false
  | c :: cs, d :: ds => if c = d then strLe cs ds else decide (c < d)

/-- Insert one string into a sorted list of strings. -/
def insertStr (x : List Char) : List (List Char) → List (List Char)
  | [] => [x]
  | y :: ys => if strLe x y then x :: y :: ys else y :: insertStr x ys

/-- `sorted(list(...))` on story titles. -/
def sortStrs : List (List Char) → List (List Char)
  | [] => []
  | x :: xs => insertStr x (sortStrs xs)

/-- Insert one record into a list sorted by name. -/
def insertByName (x : EntityRecord) : List EntityRecord → List EntityRecord
  | [] => [x]
  | y :: ys => if strLe x.name y.name then x :: y :: ys else y :: insertByName x ys

/-- `final_output.sort(key=lambda x: x['name'])`. -/
def sortByName : List EntityRecord → List EntityRecord
  | [] => []
  | x :: xs => insertByName x (sortByName xs)

/-- One dict entry turned into an output record, its story set serialized
as a sorted list (ner_wayang.py lines 144-152). -/
def toRecord (p : List Char × EntityData) : EntityRecord :=
  ⟨p.1, p.2.label, p.2.score, sortStrs p.2.stories⟩

/-- The serialized entity table of `run_ner_process`: the dict formatted as
records and sorted by display name (ner_wayang.py lines 144-153). -/
def final_output (rows : List Row) : List EntityRecord :=
  sortByName ((unique_entities rows).map toRecord)

/-- A fold preserves any invariant its step preserves. -/
theorem foldl_invariant {α β : Type} (P : α → Prop) (step : α → β → α)
    (hstep : ∀ a b, P a → P (step a b)) :
    ∀ (l : List β) (a : α), P a → P (l.foldl step a) := by
  intro l
  induction l with
  | nil => intro a ha; exact ha
  | cons b bs ih => intro a ha; exact ih _ (hstep a b ha)

/-- Membership after a dict assignment: an element of the updated table is
an old element or the new binding. -/
theorem mem_setTable {α : Type} :
    ∀ (t : List (List Char × α)) (k : List Char) (v : α) (q : List Char × α),
      q ∈ setTable t k v → q ∈ t ∨ q = (k, v) := by
  intro t
  induction t with
  | nil =>
    intro k v q hq
    rw [setTable] at hq
    exact Or.inr (by simpa using hq)
  | cons p rest ih =>
    obtain ⟨k1, v1⟩ := p
    intro k v q hq
    rw [setTable] at hq
    by_cases hk : k1 = k
    · rw [if_pos hk] at hq
      rcases List.mem_cons.1 hq with h | h
      · exact Or.inr h
      · exact Or.inl (List.mem_cons_of_mem _ h)
    · rw [if_neg hk] at hq
      rcases List.mem_cons.1 hq with h | h
      · exact Or.inl (h ▸ List.mem_cons_self _ _)
      · rcases ih k v q h with h1 | h1
        · exact Or.inl (List.mem_cons_of_mem _ h1)
        · exact Or.inr h1

/-- A key of the updated table is the assigned key or an old key. -/
theorem keys_mem_setTable {α : Type} (t : List (List Char × α)) (k : List Char)
    (v : α) (x : List Char) (hx : x ∈ (setTable t k v).map Prod.fst) :
    x = k ∨ x ∈ t.map Prod.fst := by
  rcases List.mem_map.1 hx with ⟨q, hq, rfl⟩
  rcases mem_setTable t k v q hq with h | h
  · exact Or.inr (List.mem_map_of_mem _ h)
  · exact Or.inl (by rw [h])

/-- Dict assignment preserves key uniqueness. -/
theorem nodup_keys_setTable {α : Type} :
    ∀ (t : List (List Char × α)) (k : List Char) (v : α),
      (t.map Prod.fst).Nodup → ((setTable t k v).map Prod.fst).Nodup := by
  intro t
  induction t with
  | nil => intro k v _; simp [setTable]
  | cons p rest ih =>
    obtain ⟨k1, v1⟩ := p
    intro k v h
    simp only [List.map_cons, List.nodup_cons] at h
    rw [setTable]
    by_cases hk : k1 = k
    · rw [if_pos hk]
      simp only [List.map_cons, List.nodup_cons]
      exact ⟨hk ▸ h.1, h.2⟩
    · rw [if_neg hk]
      simp only [List.map_cons, List.nodup_cons]
      refine ⟨?_, ih k v h.2⟩
      intro hmem
      rcases keys_mem_setTable rest k v k1 hmem with h1 | h1
      · exact hk h1
      · exact h.1 h1

/-- A successful dict lookup returns a binding of the table. -/
theorem lookupTable_mem {α : Type} :
    ∀ (t : List (List Char × α)) (k : List Char) (v : α),
      lookupTable t k = some v → (k, v) ∈ t := by
  intro t
  induction t with
  | nil => intro k v h; simp [lookupTable] at h
  | cons p rest ih =>
    obtain ⟨k1, v1⟩ := p
    intro k v h
    rw [lookupTable] at h
    by_cases hk : k1 = k
    · rw [if_pos hk] at h
      injection h with hv
      rw [← hk, ← hv]
      exact List.mem_cons_self _ _
    · rw [if_neg hk] at h
      exact List.mem_cons_of_mem _ (ih k v h)

/-- Looking up the key just assigned returns the assigned value. -/
theorem lookup_setTable_self {α : Type} :
    ∀ (t : List (List Char × α)) (k : List Char) (v : α),
      lookupTable (setTable t k v) k = some v := by
  intro t
  induction t with
  | nil => intro k v; simp [setTable, lookupTable]
  | cons p rest ih =>
    obtain ⟨k1, v1⟩ := p
    intro k v
    rw [setTable]
    by_cases hk : k1 = k
    · rw [if_pos hk, lookupTable, if_pos rfl]
    · rw [if_neg hk, lookupTable, if_neg hk]
      exact ih k v

/-- Assigning one key leaves lookups of other keys unchanged. -/
theorem lookup_setTable_ne {α : Type} :
    ∀ (t : List (List Char × α)) (k' k : List Char) (v : α), k' ≠ k →
      lookupTable (setTable t k' v) k = lookupTable t k := by
  intro t
  induction t with
  | nil => intro k' k v h; simp [setTable, lookupTable, h]
  | cons p rest ih =>
    obtain ⟨k1, v1⟩ := p
    intro k' k v h
    rw [setTable]
    by_cases hk : k1 = k'
    · subst hk
      rw [if_pos rfl, lookupTable, if_neg h, lookupTable, if_neg h]
    · rw [if_neg hk, lookupTable, lookupTable]
      by_cases h2 : k1 = k
      · rw [if_pos h2, if_pos h2]
      · rw [if_neg h2, if_neg h2]
        exact ih k' k v h

/-- The per-entity step preserves key uniqueness of the dict. -/
theorem processEntity_keys_nodup (text story : List Char)
    (table : List (List Char × EntityData)) (ent : RawEnt)
    (h : (table.map Prod.fst).Nodup) :
    ((processEntity text story table ent).map Prod.fst).Nodup := by
  simp only [processEntity]
  split_ifs <;> try exact h
  cases lookupTable table
      (clean_entity_name (expand_to_full_word text ent.start ent.endPos)) with
  | none => exact nodup_keys_setTable _ _ _ h
  | some d => exact nodup_keys_setTable _ _ _ h

/-- Claim C1 as amended: the aggregation identity is the exact cleaned
display string (case-sensitive): the resulting table never holds two
entries with the same cleaned name. -/
theorem claim_C1_amended_exact_key_uniqueness (rows : List Row) :
    ((unique_entities rows).map Prod.fst).Nodup := by
  refine foldl_invariant (fun t => (t.map Prod.fst).Nodup) processRow ?_ rows [] (by simp)
  intro t r ht
  rw [processRow]
  split_ifs with h
  · exact ht
  · exact foldl_invariant _ _
      (fun t' e ht' => processEntity_keys_nodup r.text (pyTrim r.judul) t' e ht') r.ents t ht

/-- A row whose text holds the same name in two capitalizations: both spans
survive every filter and clean to "Raden" and "raden". -/
def rowMixedCase : Row :=
  ⟨"Raden raden".toList, "Cerita".toList,
   [⟨"PER", mkRat 9 10, 0, 5⟩, ⟨"LOC", mkRat 9 10, 6, 11⟩]⟩

/-- Claim C1 (counterexample): the aggregation key is NOT the lowercased,
trimmed name — the code keys the dict by the cleaned string
case-sensitively, so the table for `rowMixedCase` holds two entries whose
lowercased, trimmed names are both "raden". -/
theorem claim_C1_counterexample :
    ¬ (((unique_entities [rowMixedCase]).map (fun p => normalize_key p.1)).Nodup) := by
  decide

/-- Claim C7: a span contributes to the table only when it passes all
filters — the confidence check (threshold 0.60, tested first, before any
cleaning), the minimum cleaned length of 3, and the blocklist; a span
failing any of them leaves the table unchanged. -/
theorem claim_C7_span_filter_preconditions (text story : List Char)
    (table : List (List Char × EntityData)) (ent : RawEnt) :
    CONFIDENCE_THRESHOLD = (0.60 : ℚ) ∧
    (ent.score < CONFIDENCE_THRESHOLD → processEntity text story table ent = table) ∧
    ((clean_entity_name (expand_to_full_word text ent.start ent.endPos)).length < 3 →
      processEntity text story table ent = table) ∧
    (clean_entity_name (expand_to_full_word text ent.start ent.endPos) ∈ BLOCKLIST →
      processEntity text story table ent = table) := by
  refine ⟨by norm_num [CONFIDENCE_THRESHOLD, Rat.mkRat_eq_div], ?_, ?_, ?_⟩
  · intro h
    simp only [processEntity]
    rw [if_pos h]
  · intro h
    simp only [processEntity]
    by_cases h1 : ent.score < CONFIDENCE_THRESHOLD
    · rw [if_pos h1]
    · rw [if_neg h1, if_pos h]
  · intro h
    simp only [processEntity]
    by_cases h1 : ent.score < CONFIDENCE_THRESHOLD
    · rw [if_pos h1]
    · rw [if_neg h1]
      by_cases h2 :
        (clean_entity_name (expand_to_full_word text ent.start ent.endPos)).length < 3
      · rw [if_pos h2]
      · rw [if_neg h2, if_pos h]

/-- Witness for C7: a span with confidence 0.50 < 0.60 is rejected. -/
theorem claim_C7_span_filter_preconditions_witness :
    (mkRat 50 100 < CONFIDENCE_THRESHOLD) ∧
    processEntity ("Raden Wasanta".toList) ("Cerita".toList) []
      ⟨"PER", mkRat 50 100, 0, 13⟩ = [] :=
  ⟨by decide,
   (claim_C7_span_filter_preconditions ("Raden Wasanta".toList) ("Cerita".toList) []
      ⟨"PER", mkRat 50 100, 0, 13⟩).2.1 (by decide)⟩

/-- A label produced by `label_of_group` that is not "Unknown" is one of the
three known labels. -/
theorem label_of_group_mem (group : String)
    (h : label_of_group group ≠ "Unknown") :
    label_of_group group ∈ ["Person", "Organization", "Location"] := by
  simp only [label_of_group] at h ⊢
  split_ifs at h ⊢ <;> simp_all

/-- The table invariant of claim C10: every stored entry passed the
confidence threshold and carries a known label. -/
def goodEntityTable (t : List (List Char × EntityData)) : Prop :=
  ∀ p ∈ t, CONFIDENCE_THRESHOLD ≤ p.2.score ∧
    p.2.label ∈ ["Person", "Organization", "Location"]

/-- The per-entity step preserves the claim C10 invariant: a fresh entry has
a passing score and a known label; a merge keeps the label and can only
raise the score. -/
theorem processEntity_good (text story : List Char)
    (table : List (List Char × EntityData)) (ent : RawEnt)
    (h : goodEntityTable table) :
    goodEntityTable (processEntity text story table ent) := by
  simp only [processEntity]
  split_ifs with h1 h2 h3 h4 <;> try exact h
  cases hl : lookupTable table
      (clean_entity_name (expand_to_full_word text ent.start ent.endPos)) with
  | none =>
    intro p hp
    rcases mem_setTable _ _ _ p hp with hm | hm
    · exact h p hm
    · subst hm
      exact ⟨not_lt.1 h1, label_of_group_mem ent.entity_group h4⟩
  | some d =>
    intro p hp
    rcases mem_setTable _ _ _ p hp with hm | hm
    · exact h p hm
    · subst hm
      have hd := h _ (lookupTable_mem _ _ _ hl)
      exact ⟨le_trans hd.1 (le_max_left _ _), hd.2⟩

/-- A member of the insertion-sorted list was the inserted element or a
member of the original list. -/
theorem mem_insertByName (x y : EntityRecord) :
    ∀ l, y ∈ insertByName x l → y = x ∨ y ∈ l := by
  intro l
  induction l with
  | nil => intro h; exact Or.inl (by simpa [insertByName] using h)
  | cons z zs ih =>
    intro h
    rw [insertByName] at h
    split_ifs at h
    · rcases List.mem_cons.1 h with h1 | h1
      · exact Or.inl h1
      · exact Or.inr h1
    · rcases List.mem_cons.1 h with h1 | h1
      · exact Or.inr (h1 ▸ List.mem_cons_self _ _)
      · rcases ih h1 with h2 | h2
        · exact Or.inl h2
        · exact Or.inr (List.mem_cons_of_mem _ h2)

/-- Sorting by name only permutes: every member of the sorted list is a
member of the original list. -/
theorem mem_sortByName (y : EntityRecord) :
    ∀ l, y ∈ sortByName l → y ∈ l := by
  intro l
  induction l with
  | nil => intro h; simp [sortByName] at h
  | cons x xs ih =>
    intro h
    rw [sortByName] at h
    rcases mem_insertByName x y _ h with h1 | h1
    · exact h1 ▸ List.mem_cons_self _ _
    · exact List.mem_cons_of_mem _ (ih h1)

/-- Claim C10: every entry of the final serialized entity table has
confidence at least 0.60 and one of the labels Person, Organization,
Location. -/
theorem claim_C10_threshold_and_label_invariant (rows : List Row)
    (r : EntityRecord) (hr : r ∈ final_output rows) :
    (0.60 : ℚ) ≤ r.confidence ∧
    r.label ∈ ["Person", "Organization", "Location"] := by
  have hth : (0.60 : ℚ) = CONFIDENCE_THRESHOLD := by
    norm_num [CONFIDENCE_THRESHOLD, Rat.mkRat_eq_div]
  have htab : goodEntityTable (unique_entities rows) := by
    refine foldl_invariant goodEntityTable processRow ?_ rows []
      (fun p hp => absurd hp (List.not_mem_nil p))
    intro t r' ht
    rw [processRow]
    split_ifs with h
    · exact ht
    · exact foldl_invariant _ _
        (fun t' e ht' => processEntity_good r'.text (pyTrim r'.judul) t' e ht') r'.ents t ht
  have h1 : r ∈ (unique_entities rows).map toRecord := mem_sortByName r _ hr
  rcases List.mem_map.1 h1 with ⟨p, hp, rfl⟩
  have hgood := htab p hp
  exact ⟨hth ▸ hgood.1, hgood.2⟩

/-- A single-row corpus whose one span survives all filters. -/
def rowWitness : Row :=
  ⟨"Raden Wasanta".toList, "Cerita".toList, [⟨"PER", mkRat 9 10, 0, 13⟩]⟩

/-- Witness for C10: the concrete record produced from `rowWitness` is in
the final table and satisfies the invariant. -/
theorem claim_C10_threshold_and_label_invariant_witness :
    ((⟨"Raden Wasanta".toList, "Person", mkRat 9 10, ["Cerita".toList]⟩ : EntityRecord) ∈
      final_output [rowWitness]) ∧
    ((0.60 : ℚ) ≤
      (⟨"Raden Wasanta".toList, "Person", mkRat 9 10, ["Cerita".toList]⟩ : EntityRecord).confidence ∧
      (⟨"Raden Wasanta".toList, "Person", mkRat 9 10, ["Cerita".toList]⟩ : EntityRecord).label ∈
        ["Person", "Organization", "Location"]) :=
  ⟨by decide,
   claim_C10_threshold_and_label_invariant [rowWitness]
     ⟨"Raden Wasanta".toList, "Person", mkRat 9 10, ["Cerita".toList]⟩ (by decide)⟩

/-- One accepted sighting of a key: the label, confidence and story title a
surviving span contributes (the data the merge branch of ner_wayang.py
lines 128-138 consumes). -/
structure Sighting where
  label : String
  score : ℚ
  story : List Char
deriving DecidableEq

/-- The merge of one sighting into the (possibly absent) stored entry,
exactly as ner_wayang.py lines 128-138: a fresh entry takes the sighting's
label and score and a singleton story set; an existing entry keeps its
label, max-merges the score and unions the story. -/
def mergeSighting (o : Option EntityData) (s : Sighting) : EntityData :=
  match o with
  | none => ⟨s.label, s.score, [s.story]⟩
  | some d => ⟨d.label, max d.score s.score, addStory d.stories s.story⟩

/-- The filter stage of the per-entity loop as a partial function: `none`
when the span is rejected, otherwise the cleaned key and its sighting. -/
def acceptedSighting (text story : List Char) (ent : RawEnt) :
    Option (List Char × Sighting) :=
  if ent.score < CONFIDENCE_THRESHOLD then none
  else
    let clean_word := clean_entity_name (expand_to_full_word text ent.start ent.endPos)
    if clean_word.length < 3 then none
    else if clean_word ∈ BLOCKLIST then none
    else
      let label := label_of_group ent.entity_group
      if label ≠ "Unknown" then some (clean_word, ⟨label, ent.score, story⟩)
      else none

/-- The corpus pass flattened into the stream of (text, story, span)
triples the aggregator consumes, in processing order (rows shorter than 5
characters contribute nothing). -/
def spanStream : List Row → List (List Char × List Char × RawEnt)
  | [] => []
  | r :: rows =>
    (if r.text.length < 5 then []
     else r.ents.map (fun e => (r.text, pyTrim r.judul, e))) ++ spanStream rows

/-- The sightings of one exact cleaned key, in processing order. -/
def sightingsOf (rows : List Row) (k : List Char) : List Sighting :=
  (((spanStream rows).filterMap (fun t => acceptedSighting t.1 t.2.1 t.2.2)).filter
    (fun p => decide (p.1 = k))).map Prod.snd

/-- The per-entity step is the filter stage followed, on acceptance, by a
dict assignment of the merged entry. -/
theorem processEntity_eq_merge (text story : List Char)
    (table : List (List Char × EntityData)) (ent : RawEnt) :
    processEntity text story table ent =
      match acceptedSighting text story ent with
      | none => table
      | some (k, s) => setTable table k (mergeSighting (lookupTable table k) s) := by
  simp only [processEntity, acceptedSighting]
  split_ifs <;> try rfl
  dsimp only
  cases lookupTable table
      (clean_entity_name (expand_to_full_word text ent.start ent.endPos)) with
  | none => rfl
  | some d => rfl

/-- The per-key view of the whole aggregation fold: looking up a key after
processing a stream of triples equals folding the merge over exactly this
key's accepted sightings, starting from the previous stored value. -/
theorem lookup_foldl_stream :
    ∀ (ts : List (List Char × List Char × RawEnt))
      (T : List (List Char × EntityData)) (k : List Char),
      lookupTable (ts.foldl (fun tb t => processEntity t.1 t.2.1 tb t.2.2) T) k =
        (((ts.filterMap (fun t => acceptedSighting t.1 t.2.1 t.2.2)).filter
            (fun p => decide (p.1 = k))).map Prod.snd).foldl
          (fun o s => some (mergeSighting o s)) (lookupTable T k) := by
  intro ts
  induction ts with
  | nil => intro T k; rfl
  | cons t ts ih =>
    intro T k
    rw [List.foldl_cons, processEntity_eq_merge, List.filterMap_cons]
    cases ha : acceptedSighting t.1 t.2.1 t.2.2 with
    | none => exact ih T k
    | some p =>
      obtain ⟨k1, s⟩ := p
      by_cases hk : k1 = k
      · subst hk
        rw [List.filter_cons_of_pos (by simp), List.map_cons, List.foldl_cons, ih,
          lookup_setTable_self]
      · rw [List.filter_cons_of_neg (by simp [hk]), ih, lookup_setTable_ne _ _ _ _ hk]

/-- The row-by-row aggregation equals the fold over the flattened span
stream. -/
theorem unique_entities_eq_stream :
    ∀ (rows : List Row) (T : List (List Char × EntityData)),
      rows.foldl processRow T =
        (spanStream rows).foldl (fun tb t => processEntity t.1 t.2.1 tb t.2.2) T := by
  intro rows
  induction rows with
  | nil => intro T; rfl
  | cons r rows ih =>
    intro T
    rw [List.foldl_cons, spanStream, List.foldl_append, ih]
    congr 1
    rw [processRow]
    split_ifs with h
    · rfl
    · rw [List.foldl_map]

/-- The merge loop for a single key, fused over a list of sightings of that
key (the accumulator is the stored entry). -/
def foldMerge : List Sighting → EntityData → EntityData
  | [], d => d
  | s :: ss, d => foldMerge ss (mergeSighting (some d) s)

/-- Once an entry exists, the option-level merge fold is the entry-level
merge fold. -/
theorem foldl_some_mergeSighting :
    ∀ (ss : List Sighting) (d : EntityData),
      ss.foldl (fun o s => some (mergeSighting o s)) (some d) =
        some (foldMerge ss d) := by
  intro ss
  induction ss with
  | nil => intro d; rfl
  | cons s ss ih => intro d; rw [List.foldl_cons]; exact ih _

/-- Merging never changes the stored label: it stays the label the entry
was created with. -/
theorem foldMerge_label : ∀ (ss : List Sighting) (d : EntityData),
    (foldMerge ss d).label = d.label := by
  intro ss
  induction ss with
  | nil => intro d; rfl
  | cons s ss ih => intro d; exact ih _

/-- Merging never lowers the stored score. -/
theorem foldMerge_score_init_le : ∀ (ss : List Sighting) (d : EntityData),
    d.score ≤ (foldMerge ss d).score := by
  intro ss
  induction ss with
  | nil => intro d; exact le_refl _
  | cons s ss ih =>
    intro d
    exact le_trans (le_max_left d.score s.score) (ih (mergeSighting (some d) s))

/-- The stored score is an upper bound of every merged sighting's score. -/
theorem foldMerge_score_ub : ∀ (ss : List Sighting) (d : EntityData)
    (s : Sighting), s ∈ ss → s.score ≤ (foldMerge ss d).score := by
  intro ss
  induction ss with
  | nil => intro d s h; simp at h
  | cons s0 ss ih =>
    intro d s h
    rcases List.mem_cons.1 h with h1 | h1
    · subst h1
      exact le_trans (le_max_right d.score s.score)
        (foldMerge_score_init_le ss (mergeSighting (some d) s))
    · exact ih _ s h1

/-- The stored score is attained: it is the initial score or some merged
sighting's score. -/
theorem foldMerge_score_attained : ∀ (ss : List Sighting) (d : EntityData),
    (foldMerge ss d).score = d.score ∨
      ∃ s ∈ ss, (foldMerge ss d).score = s.score := by
  intro ss
  induction ss with
  | nil => intro d; exact Or.inl rfl
  | cons s0 ss ih =>
    intro d
    rcases ih (mergeSighting (some d) s0) with h | ⟨s, hs, h⟩
    · rcases max_cases d.score s0.score with ⟨hm, _⟩ | ⟨hm, _⟩
      · exact Or.inl (h.trans hm)
      · exact Or.inr ⟨s0, List.mem_cons_self _ _, h.trans hm⟩
    · exact Or.inr ⟨s, List.mem_cons_of_mem _ hs, h⟩

/-- Membership in a story set after a Python set `add`. -/
theorem mem_addStory (stories : List (List Char)) (story st : List Char) :
    st ∈ addStory stories story ↔ st ∈ stories ∨ st = story := by
  rw [addStory]
  split_ifs with h
  · constructor
    · exact Or.inl
    · rintro (h1 | h1)
      · exact h1
      · exact h1 ▸ h
  · simp [List.mem_append]

/-- The stored story set is the union of the initial set and the merged
sightings' stories. -/
theorem foldMerge_stories : ∀ (ss : List Sighting) (d : EntityData)
    (st : List Char),
    st ∈ (foldMerge ss d).stories ↔
      st ∈ d.stories ∨ ∃ s ∈ ss, s.story = st := by
  intro ss
  induction ss with
  | nil => intro d st; simp [foldMerge]
  | cons s0 ss ih =>
    intro d st
    rw [foldMerge, ih]
    constructor
    · rintro (h1 | ⟨s, hs, h1⟩)
      · rcases (mem_addStory d.stories s0.story st).1 h1 with h2 | h2
        · exact Or.inl h2
        · exact Or.inr ⟨s0, List.mem_cons_self _ _, h2.symm⟩
      · exact Or.inr ⟨s, List.mem_cons_of_mem _ hs, h1⟩
    · rintro (h1 | ⟨s, hs, h1⟩)
      · exact Or.inl ((mem_addStory d.stories s0.story st).2 (Or.inl h1))
      · rcases List.mem_cons.1 hs with h2 | h2
        · subst h2
          exact Or.inl ((mem_addStory d.stories s.story st).2 (Or.inr h1.symm))
        · exact Or.inr ⟨s, h2, h1⟩

/-- Claim C5 as amended: per exact cleaned key (the dict key the code
actually uses), for every run whose sightings of that key are
`s0 :: rest`, the stored entry exists, its label is the first sighting's
label, its score is the maximum sighting score (an upper bound that is
attained — hence order-independent), and its story set is exactly the
union of the sightings' stories. -/
theorem claim_C5_amended_merge_policy (rows : List Row) (k : List Char)
    (s0 : Sighting) (rest : List Sighting)
    (h : sightingsOf rows k = s0 :: rest) :
    ∃ d, lookupTable (unique_entities rows) k = some d ∧
      d.label = s0.label ∧
      (∀ s ∈ s0 :: rest, s.score ≤ d.score) ∧
      (∃ s ∈ s0 :: rest, d.score = s.score) ∧
      (∀ st, st ∈ d.stories ↔ ∃ s ∈ s0 :: rest, s.story = st) := by
  have hlk : lookupTable (unique_entities rows) k =
      (sightingsOf rows k).foldl (fun o s => some (mergeSighting o s)) none := by
    rw [unique_entities, unique_entities_eq_stream, lookup_foldl_stream]
    rfl
  rw [h, List.foldl_cons, foldl_some_mergeSighting] at hlk
  refine ⟨foldMerge rest (mergeSighting none s0), hlk, foldMerge_label rest _, ?_, ?_, ?_⟩
  · intro s hs
    rcases List.mem_cons.1 hs with h1 | h1
    · rw [h1]
      exact foldMerge_score_init_le rest (mergeSighting none s0)
    · exact foldMerge_score_ub rest _ s h1
  · rcases foldMerge_score_attained rest (mergeSighting none s0) with h1 | ⟨s, hs, h1⟩
    · exact ⟨s0, List.mem_cons_self _ _, h1⟩
    · exact ⟨s, List.mem_cons_of_mem _ hs, h1⟩
  · intro st
    rw [foldMerge_stories]
    constructor
    · rintro (h1 | ⟨s, hs, h1⟩)
      · rw [show (mergeSighting none s0).stories = [s0.story] from rfl,
          List.mem_singleton] at h1
        exact ⟨s0, List.mem_cons_self _ _, h1.symm⟩
      · exact ⟨s, List.mem_cons_of_mem _ hs, h1⟩
    · rintro ⟨s, hs, h1⟩
      rcases List.mem_cons.1 hs with h2 | h2
      · refine Or.inl ?_
        rw [show (mergeSighting none s0).stories = [s0.story] from rfl,
          List.mem_singleton, ← h2, ← h1]
      · exact Or.inr ⟨s, h2, h1⟩

/-- Witness for C5: a single sighting of "Raden Wasanta" yields a stored
entry with its label, score and story. -/
theorem claim_C5_amended_merge_policy_witness :
    (sightingsOf [rowWitness] ("Raden Wasanta".toList) =
      [⟨"Person", mkRat 9 10, "Cerita".toList⟩]) ∧
    (∃ d, lookupTable (unique_entities [rowWitness]) ("Raden Wasanta".toList) = some d ∧
      d.label = (⟨"Person", mkRat 9 10, "Cerita".toList⟩ : Sighting).label ∧
      (∀ s ∈ [(⟨"Person", mkRat 9 10, "Cerita".toList⟩ : Sighting)], s.score ≤ d.score) ∧
      (∃ s ∈ [(⟨"Person", mkRat 9 10, "Cerita".toList⟩ : Sighting)], d.score = s.score) ∧
      (∀ st, st ∈ d.stories ↔
        ∃ s ∈ [(⟨"Person", mkRat 9 10, "Cerita".toList⟩ : Sighting)], s.story = st)) :=
  ⟨by decide,
   claim_C5_amended_merge_policy [rowWitness] ("Raden Wasanta".toList)
     ⟨"Person", mkRat 9 10, "Cerita".toList⟩ [] (by decide)⟩

/-- The sightings whose keys share one normalized (lowercased, trimmed)
form, in processing order — the grouping the claim's merge policy is
phrased over. -/
def normSightingsOf (rows : List Row) (nk : List Char) : List Sighting :=
  (((spanStream rows).filterMap (fun t => acceptedSighting t.1 t.2.1 t.2.2)).filter
    (fun p => decide (normalize_key p.1 = nk))).map Prod.snd

/-- Claim C5 (counterexample): grouping sightings by normalized key does
not describe the code.  In `rowMixedCase` the first sighting whose
normalized key is "raden" has label "Person", yet the stored entry at key
"raden" has label "Location" — sightings of one normalized key are split
across case-distinct dict entries, so the first-sighting label policy
fails under the claim's normalized-key identity. -/
theorem claim_C5_counterexample :
    (normSightingsOf [rowMixedCase] ("raden".toList)).head?.map Sighting.label =
      some "Person" ∧
    (lookupTable (unique_entities [rowMixedCase]) ("raden".toList)).map EntityData.label =
      some "Location" := by
  constructor <;> decide
